import Mathlib

/-!
Shallow embedding of the SaxobankAutotrader trading bot core
(`strategy.py`, `account_info.py`, `market_data.py`, `scanner.py`,
`executor.py`) and proofs of the specification claims.

Prices, quantities and timestamps are modelled as rationals, byte buffers
as lists of naturals, Python dicts as association lists, and network /
clock effects as explicit parameters (oracles).
-/

/-- Association-list lookup, mirroring Python `dict.get` / `d[k]`. -/
def lookupA {α : Type} (m : List (Nat × α)) (k : Nat) : Option α :=
  (m.find? (fun p => p.1 == k)).map Prod.snd

/-- Association-list write, mirroring Python `d[k] = v` (keeps position of
an existing key, appends a fresh key). -/
def setA {α : Type} (m : List (Nat × α)) (k : Nat) (v : α) : List (Nat × α) :=
  if (m.find? (fun p => p.1 == k)).isSome then
    m.map (fun p => if p.1 == k then (k, v) else p)
  else
    m ++ [(k, v)]

/-- Association-list delete, mirroring Python `del d[k]`. -/
def eraseA {α : Type} (m : List (Nat × α)) (k : Nat) : List (Nat × α) :=
  m.filter (fun p => !(p.1 == k))

/-! ## Rate limiter (`executor.py`, class `RateLimiter`) -/

/-- State of `RateLimiter`: window length `window` (seconds), call budget
`limit`, recorded call timestamps `calls` (oldest first, as in the deque),
and the hard-cooldown deadline `cooldown_until`. -/
structure RateLimiter where
  limit : Nat
  window : ℚ
  calls : List ℚ
  cooldown_until : ℚ
deriving DecidableEq, Repr

/-- `RateLimiter._cleanup`: pop timestamps from the front while they are
older than the window. -/
def rl_cleanup (calls : List ℚ) (now window : ℚ) : List ℚ :=
  calls.dropWhile (fun t => decide (now - t > window))

/-- `RateLimiter.can_proceed(priority)`: hard cooldown first (high priority
overrides), then the sliding-window count after cleanup.  Returns the
decision together with the updated state (cleanup mutates the deque). -/
def can_proceed (rl : RateLimiter) (now : ℚ) (priority : String) : Bool × RateLimiter :=
  if now < rl.cooldown_until then
    (priority == "high", rl)
  else
    let calls := rl_cleanup rl.calls now rl.window
    let rl := { rl with calls := calls }
    if calls.length ≥ rl.limit then
      (priority == "high", rl)
    else
      (true, rl)

/-- `RateLimiter.add_call()`: record a timestamp, then cleanup. -/
def add_call (rl : RateLimiter) (now : ℚ) : RateLimiter :=
  { rl with calls := rl_cleanup (rl.calls ++ [now]) now rl.window }

/-! ## Scanner candidate filter (`scanner.py`) -/

/-- One instrument entry of a scan batch response (fields already read out
of the JSON: `Uic`, `AssetType`, `Quote.PercentChange`, `Quote.LastTraded`,
with the code's defaults applied). -/
structure ScanItem where
  uic : Option Nat
  assetType : String
  percentChange : ℚ
  lastTraded : ℚ
deriving DecidableEq, Repr

/-- `MarketScanner._analyze_hot_candidate`: price filter `1.0 ≤ p ≤ 20.0`,
then hot criterion `percent_change > 1.5`. -/
def analyze_hot_candidate (item : ScanItem) : Option (Option Nat × ℚ × String) :=
  if ¬ (1 ≤ item.lastTraded ∧ item.lastTraded ≤ 20) then
    none
  else if item.percentChange > 3/2 then
    some (item.uic, item.lastTraded, item.assetType)
  else
    none

/-! ## Account manager (`account_info.py`, class `AccountManager`) -/

/-- The commission side of `AccountManager` (`get_commissions`), a network
call; modelled as an oracle mapping `(uic, quantity, price)` to the total
cost in account currency. -/
structure AccountOracle where
  getComm : Nat → ℚ → ℚ → ℚ

/-- `AccountManager.get_fx_rate`: static mock rates; identical currencies
give 1.0, USD→EUR gives 0.90, EUR→USD gives 1.11, anything else 1.0. -/
def get_fx_rate (from_curr to_curr : String) : ℚ :=
  if from_curr = to_curr then 1
  else if from_curr = "USD" ∧ to_curr = "EUR" then 9/10
  else if from_curr = "EUR" ∧ to_curr = "USD" then 111/100
  else 1

/-- `AccountManager.calculate_net_profit`: gross PnL converted at the FX
rate, minus commission, minus 0.5% FX friction on the round-trip notional
when currencies differ, minus an optional 5 bps slippage buffer on the
exit value. -/
def calculate_net_profit (acct : AccountOracle) (entry_price exit_price quantity : ℚ)
    (uic : Nat) (instrument_currency account_currency : String)
    (include_slippage : Bool) : ℚ :=
  let fx_rate := get_fx_rate instrument_currency account_currency
  let gross_pnl_instr := (exit_price - entry_price) * quantity
  let gross_pnl_acct := gross_pnl_instr * fx_rate
  let avg_price := (entry_price + exit_price) / 2
  let commissions_acct := acct.getComm uic quantity avg_price
  let fx_cost_acct :=
    if instrument_currency ≠ account_currency then
      let notional_entry := entry_price * quantity
      let notional_exit := exit_price * quantity
      let total_volume_instr := notional_entry + notional_exit
      (total_volume_instr * fx_rate) * (5/1000)
    else 0
  let slippage_cost_acct :=
    if include_slippage then
      let exit_value_acct := (exit_price * quantity) * fx_rate
      exit_value_acct * (5/10000)
    else 0
  let total_costs := commissions_acct + fx_cost_acct + slippage_cost_acct
  gross_pnl_acct - total_costs

/-- `AccountManager.evaluate_trade`: the profit guard.  Account currency is
hardcoded to EUR and slippage is always included; safe to sell iff the net
is strictly positive. -/
def evaluate_trade (acct : AccountOracle) (entry_price current_price quantity : ℚ)
    (uic : Nat) (instrument_currency : String) : Bool :=
  decide (calculate_net_profit acct entry_price current_price quantity uic
    instrument_currency "EUR" true > 0)

/-! ## Strategy (`strategy.py`, class `TrendFollower`) -/

/-- One entry of `TrendFollower.positions`
(`{'entry_price': ..., 'quantity': ..., 'max_price': ...}`). -/
structure Position where
  entry_price : ℚ
  quantity : ℚ
  max_price : ℚ
deriving DecidableEq, Repr

/-- Signals returned by `TrendFollower.update` (`None` is `Option.none`). -/
inductive Signal where
  | BUY
  | SELL
deriving DecidableEq, Repr

/-- In-memory state of `TrendFollower`: the stop-loss fraction, the
position map and the per-UIC price history (deque of `maxlen=30`). -/
structure StrategyState where
  stop_loss_pct : ℚ
  positions : List (Nat × Position)
  price_history : List (Nat × List ℚ)
deriving DecidableEq, Repr

/-- `TrendFollower.short_period` (set in `__init__`). -/
def short_period : Nat := 5

/-- `TrendFollower.long_period` (set in `__init__`). -/
def long_period : Nat := 20

/-- Append to a `deque(maxlen=30)`: the oldest element is evicted once the
deque holds 30 entries. -/
def push_history (h : List ℚ) (p : ℚ) : List ℚ :=
  (h ++ [p]).drop (h.length + 1 - 30)

/-- `TrendFollower._calculate_ema`: SMA over the first `period` prices,
then the iterative update `ema ← price·k + ema·(1 − k)` with
`k = 2/(period+1)` over the remaining prices. -/
def calculate_ema (prices : List ℚ) (period : Nat) : ℚ :=
  if prices = [] then 0
  else
    let ema := (prices.take period).sum / period
    let k : ℚ := 2 / (period + 1)
    (prices.drop period).foldl (fun ema price => price * k + ema * (1 - k)) ema

/-- `TrendFollower._check_entry_signal`: needs at least `long_period` data
points; BUY on `short EMA > long EMA`, recording the new position with
`entry_price = max_price = current_price`. -/
def check_entry_signal (s : StrategyState) (uic : Nat) (current_price quantity : ℚ)
    (history : List ℚ) : Option Signal × StrategyState :=
  if history.length < long_period then (none, s)
  else
    let short_ema := calculate_ema history short_period
    let long_ema := calculate_ema history long_period
    if short_ema > long_ema then
      (some .BUY,
       { s with positions := setA s.positions uic ⟨current_price, quantity, current_price⟩ })
    else (none, s)

/-- `TrendFollower._check_exit_signal`: update the peak, compute the
trailing stop `max_price · (1 − stop_loss_pct)`, and on a hit run the
profit guard (`evaluate_trade` with instrument currency `"USD"`); SELL and
drop the position only when the guard passes. -/
def check_exit_signal (acct : AccountOracle) (s : StrategyState) (uic : Nat)
    (current_price : ℚ) (position : Position) : Option Signal × StrategyState :=
  let position :=
    if current_price > position.max_price then
      { position with max_price := current_price }
    else position
  let s := { s with positions := setA s.positions uic position }
  let stop_price := position.max_price * (1 - s.stop_loss_pct)
  if current_price ≤ stop_price then
    if evaluate_trade acct position.entry_price current_price position.quantity uic "USD" then
      (some .SELL, { s with positions := eraseA s.positions uic })
    else
      (none, s)
  else
    (none, s)

/-- The state after `update`'s first step
(`self.price_history[uic].append(current_price)`). -/
def with_history (s : StrategyState) (uic : Nat) (current_price : ℚ) : StrategyState :=
  { s with
      price_history := setA s.price_history uic
          (push_history ((lookupA s.price_history uic).getD []) current_price) }

/-- `TrendFollower.update`: append the price to the UIC's history, then
check the exit signal when a position is held, else the entry signal. -/
def strategy_update (acct : AccountOracle) (s : StrategyState) (uic : Nat)
    (current_price quantity : ℚ) : Option Signal × StrategyState :=
  let h := push_history ((lookupA s.price_history uic).getD []) current_price
  let s := { s with price_history := setA s.price_history uic h }
  match lookupA s.positions uic with
  | some position => check_exit_signal acct s uic current_price position
  | none => check_entry_signal s uic current_price quantity h

/-! ## Binary frame decoder (`market_data.py`, `decode_saxo_message`) -/

/-- One decoded logical frame. -/
structure SaxoFrame where
  msgId : Nat
  refId : String
  payloadFormat : Nat
  payload : List Nat
deriving DecidableEq, Repr

/-- Little-endian value of a byte list. -/
def leVal : List Nat → Nat
  | [] => 0
  | b :: rest => b + 256 * leVal rest

/-- `struct.unpack_from` of an `n`-byte little-endian unsigned integer at
`off`: fails (raises `struct.error`) when the buffer is too short. -/
def readLE (msg : List Nat) (off n : Nat) : Option Nat :=
  if off + n ≤ msg.length then some (leVal ((msg.drop off).take n)) else none

/-- Python slice `msg[off : off + n]` (clamps, never fails). -/
def sliceBytes (msg : List Nat) (off n : Nat) : List Nat :=
  (msg.drop off).take n

/-- `bytes.decode('ascii')`: fails on any byte ≥ 128. -/
def asciiDecode (bs : List Nat) : Option String :=
  if bs.all (fun b => b < 128) then some (String.mk (bs.map Char.ofNat)) else none

/-- `decode_saxo_message`: sequentially unpack message id (8 bytes LE at 0),
skip 2 reserved bytes, ref-id length (1 byte at 10), ref-id (ASCII), payload
format (1 byte), payload size (4 bytes LE) and slice out the payload.  Any
unpack failure is an exception, modelled as `none`.  Note that exactly one
frame is decoded; trailing bytes are ignored. -/
def decode_saxo_message (msg : List Nat) : Option SaxoFrame :=
  match readLE msg 0 8 with
  | none => none
  | some msgId =>
    match readLE msg 10 1 with
    | none => none
    | some refLen =>
      match asciiDecode (sliceBytes msg 11 refLen) with
      | none => none
      | some refId =>
        match readLE msg (11 + refLen) 1 with
        | none => none
        | some payloadFormat =>
          match readLE msg (12 + refLen) 4 with
          | none => none
          | some payloadSize =>
            some ⟨msgId, refId, payloadFormat, sliceBytes msg (16 + refLen) payloadSize⟩

/-- Modelled from the spec: the decoder the specification describes, which
"iterates until the buffer is exhausted", decoding every concatenated
logical frame of the message (fuelled recursion; the fuel `msg.length`
always suffices because each frame consumes at least one byte). -/
def decodeAllFramesSpecAux : Nat → List Nat → Option (List SaxoFrame)
  | _, [] => some []
  | 0, _ => none
  | fuel + 1, msg =>
    match decode_saxo_message msg, readLE msg 10 1 with
    | some f, some refLen =>
      match readLE msg (12 + refLen) 4 with
      | some payloadSize =>
        match decodeAllFramesSpecAux fuel (msg.drop (16 + refLen + payloadSize)) with
        | some fs => some (f :: fs)
        | none => none
      | none => none
    | _, _ => none

/-- Modelled from the spec: decode every concatenated frame of a WebSocket
message (the source's `decode_saxo_message` decodes only the first). -/
def decodeAllFramesSpec (msg : List Nat) : Option (List SaxoFrame) :=
  decodeAllFramesSpecAux msg.length msg

/-- `n`-byte little-endian encoding of a value (inverse of `leVal` below
`256 ^ n`). -/
def leBytes : Nat → Nat → List Nat
  | 0, _ => []
  | n + 1, v => v % 256 :: leBytes n (v / 256)

/-- Encoder for the §4.D frame layout (written for round-trip testing, as
the spec's test plan asks): message id (8 bytes LE), two reserved zero
bytes, ref-id length, ASCII ref-id bytes, payload format, payload size
(4 bytes LE), payload. -/
def encode_saxo_frame (f : SaxoFrame) : List Nat :=
  leBytes 8 f.msgId ++ [0, 0] ++ [f.refId.length] ++ f.refId.data.map Char.toNat
    ++ [f.payloadFormat] ++ leBytes 4 f.payload.length ++ f.payload

/-- Two §4.D frames concatenated in one WebSocket message:
`(msgId 1, refId "A", format 1, payload [7])` followed by
`(msgId 2, refId "B", format 1, payload [9])`. -/
def two_frame_msg : List Nat :=
  [1, 0, 0, 0, 0, 0, 0, 0, 0, 0, 1, 65, 1, 1, 0, 0, 0, 7,
   2, 0, 0, 0, 0, 0, 0, 0, 0, 0, 1, 66, 1, 1, 0, 0, 0, 9]

/-! ## Streaming manager state (`market_data.py`, class `MarketDataManager`) -/

/-- One element of a decoded JSON payload list, with the fields
`_process_data_list` reads (`Uic`, `Quote.LastTraded`, `Quote.Ask`,
`Quote.Bid`); absent fields are `none`. -/
structure PayloadItem where
  uic : Option Nat
  lastTraded : Option ℚ
  ask : Option ℚ
  bid : Option ℚ
deriving DecidableEq, Repr

/-- One entry of `live_market_state` (`LastPrice`, `Updated`, `Raw`). -/
structure QuoteEntry where
  lastPrice : ℚ
  updated : ℚ
  raw : PayloadItem
deriving DecidableEq, Repr

/-- Local ledger of `MarketDataManager`: active UICs, UIC → reference id,
UIC → quote, UIC → subscription start time. -/
structure MDState where
  active_uics : List Nat
  uic_ref_map : List (Nat × String)
  live_market_state : List (Nat × QuoteEntry)
  subscription_start_times : List (Nat × ℚ)
deriving DecidableEq, Repr

/-- `MarketDataManager.ref_id`, the fixed base reference id. -/
def base_ref_id : String := "PriceSub_1"

/-- The reference id a dynamic single-UIC subscription is enrolled under:
`self.ref_id + f"_{uic}_{int(time.time())}"`. -/
def dyn_ref_id (uic now_sec : Nat) : String :=
  base_ref_id ++ "_" ++ toString uic ++ "_" ++ toString now_sec

/-- Python truthiness chain `a or b or c` followed by `if last_price:`:
the first present, non-zero price wins; a missing or zero result fails the
guard. -/
def firstTruthy : List (Option ℚ) → Option ℚ
  | [] => none
  | none :: rest => firstTruthy rest
  | some v :: rest => if v = 0 then firstTruthy rest else some v

/-- `MarketDataManager._process_data_list`: per item, read the UIC and the
first truthy price and overwrite the quote map entry (skipping falsy UICs
and falsy prices). -/
def process_data_list (q : List (Nat × QuoteEntry)) (data : List PayloadItem)
    (now : ℚ) : List (Nat × QuoteEntry) :=
  data.foldl
    (fun q item =>
      match item.uic with
      | some u =>
        if u ≠ 0 then
          match firstTruthy [item.lastTraded, item.ask, item.bid] with
          | some p => setA q u ⟨p, now, item⟩
          | none => q
        else q
      | none => q)
    q

/-- `MarketDataManager._on_message` for a binary message: decode it (any
exception only drops this message), and feed the payload through quote
extraction only when the frame's reference id equals the base reference
id.  `parse` abstracts `json.loads` of the payload bytes. -/
def on_message (parse : List Nat → List PayloadItem) (s : MDState)
    (msg : List Nat) (now : ℚ) : MDState :=
  match decode_saxo_message msg with
  | none => s
  | some f =>
    if f.refId = base_ref_id then
      { s with live_market_state := process_data_list s.live_market_state (parse f.payload) now }
    else s

/-- `MarketDataManager.subscribe_to_ticker`: no-op when already tracked;
else append to the active list, start the prune clock, and run
`_subscribe_uics([uic])` with suffix `_{uic}_{int(time.time())}`.  On a 201
(`rest_ok`) the ledger maps the UIC to the suffixed reference id and the
snapshot (`snapshot` items) is fed through quote extraction. -/
def subscribe_to_ticker (rest_ok : Bool) (snapshot : List PayloadItem)
    (s : MDState) (uic : Nat) (now_sec : Nat) : MDState :=
  if uic ∈ s.active_uics then s
  else
    let s := { s with
      active_uics := s.active_uics ++ [uic],
      subscription_start_times := setA s.subscription_start_times uic (now_sec : ℚ) }
    if rest_ok then
      { s with
        uic_ref_map := setA s.uic_ref_map uic (dyn_ref_id uic now_sec),
        live_market_state := process_data_list s.live_market_state snapshot (now_sec : ℚ) }
    else s

/-- `MarketDataManager.unsubscribe_from_ticker`: no-op when the UIC is not
active.  Without a known reference id, local state (except the ref map,
which has no entry) is dropped with no REST call.  With one, the REST
DELETE is issued (`rest_ok uic` tells whether it returned 200/202/204) and
local state is cleaned up only on success; on failure or exception the
method only logs. -/
def unsubscribe_from_ticker (rest_ok : Nat → Bool) (s : MDState) (uic : Nat) : MDState :=
  if uic ∉ s.active_uics then s
  else
    match lookupA s.uic_ref_map uic with
    | none =>
      { s with
        active_uics := s.active_uics.erase uic,
        live_market_state := eraseA s.live_market_state uic,
        subscription_start_times := eraseA s.subscription_start_times uic }
    | some _ =>
      if rest_ok uic then
        { s with
          active_uics := s.active_uics.erase uic,
          uic_ref_map := eraseA s.uic_ref_map uic,
          live_market_state := eraseA s.live_market_state uic,
          subscription_start_times := eraseA s.subscription_start_times uic }
      else s

/-- The `to_remove` selection of `MarketDataManager.prune_stream`: every
UIC whose start time lies more than 3600 s in the past and which is not in
the safe list. -/
def prune_to_remove (start_times : List (Nat × ℚ)) (safe_uics : List Nat)
    (now : ℚ) : List Nat :=
  (start_times.filter
    (fun p => !(decide (p.1 ∈ safe_uics)) && decide (now - p.2 > 3600))).map Prod.fst

/-- `MarketDataManager.prune_stream`: select the stale non-safe UICs and
unsubscribe each of them. -/
def prune_stream (rest_ok : Nat → Bool) (s : MDState) (safe_uics : List Nat)
    (now : ℚ) : MDState :=
  (prune_to_remove s.subscription_start_times safe_uics now).foldl
    (unsubscribe_from_ticker rest_ok) s

/-! ## Position persistence (`strategy.py`, `_save_state` / `_load_state`) -/

/-- A JSON value as persisted for a position (all four fields are
numbers). -/
structure JNum where
  val : ℚ
deriving DecidableEq, Repr

/-- `TrendFollower._save_state`: the JSON object written under
`saxotrader:position:{uic}` — the position dict (insertion order
`entry_price`, `quantity`, `max_price`) with the `uic` field ensured. -/
def save_state (uic : Nat) (p : Position) : List (String × JNum) :=
  [("entry_price", ⟨p.entry_price⟩), ("quantity", ⟨p.quantity⟩),
   ("max_price", ⟨p.max_price⟩), ("uic", ⟨(uic : ℚ)⟩)]

/-- JSON-object field access `pos_data.get(k)` / `pos_data[k]`. -/
def jGet (obj : List (String × JNum)) (k : String) : Option JNum :=
  (obj.find? (fun p => p.1 == k)).map Prod.snd

/-- `TrendFollower._load_state` for one stored key: read the object's
`uic`; if it is truthy, store the object in the in-memory map under
`int(uic)` (nonnegative UICs; the stored dict is observed through its
`entry_price`, `quantity` and `max_price` fields). -/
def load_state (obj : List (String × JNum)) : Option (Nat × Position) :=
  match jGet obj "uic" with
  | none => none
  | some u =>
    if u.val = 0 then none
    else
      match jGet obj "entry_price", jGet obj "quantity", jGet obj "max_price" with
      | some e, some q, some m => some (u.val.floor.toNat, ⟨e.val, q.val, m.val⟩)
      | _, _, _ => none

/-- A concrete ledger holding UIC 7 with a known reference id. -/
def c4_state : MDState :=
  ⟨[7], [(7, "PriceSub_1_7_100")], [], [(7, 0)]⟩

/-- The states `s` and `t` agree on UIC `u`: same active-list membership and
same ledger entries in all three maps. -/
def ledger_entries_eq (s t : MDState) (u : Nat) : Prop :=
  (u ∈ t.active_uics ↔ u ∈ s.active_uics)
  ∧ lookupA t.uic_ref_map u = lookupA s.uic_ref_map u
  ∧ lookupA t.live_market_state u = lookupA s.live_market_state u
  ∧ lookupA t.subscription_start_times u = lookupA s.subscription_start_times u

/-! ## Association-list lemmas -/

theorem lookupA_cons_ne {α : Type} (a : Nat × α) (l : List (Nat × α)) (k : Nat)
    (h : (a.1 == k) = false) : lookupA (a :: l) k = lookupA l k := by
  simp [lookupA, List.find?_cons, h]

theorem lookupA_setA {α : Type} (m : List (Nat × α)) (k : Nat) (v : α) :
    lookupA (setA m k v) k = some v := by
  induction m with
  | nil => simp [setA, lookupA]
  | cons a rest ih =>
    by_cases h : (a.1 == k) = true
    · have hfind : (a :: rest).find? (fun p => p.1 == k) = some a := by
        simp [List.find?_cons, h]
      simp only [setA, hfind, Option.isSome_some, if_true, List.map_cons, h, if_pos]
      simp [lookupA, List.find?_cons]
    · have h' : (a.1 == k) = false := by simpa using h
      have hfind : (a :: rest).find? (fun p => p.1 == k)
          = rest.find? (fun p => p.1 == k) := by
        simp [List.find?_cons, h']
      have hcond : ¬ ((a.1 == k) = true) := by simp [h']
      by_cases hs : (rest.find? (fun p => p.1 == k)).isSome = true
      · have he : setA (a :: rest) k v
            = a :: rest.map (fun p => if p.1 == k then (k, v) else p) := by
          simp only [setA, hfind, hs, if_true, List.map_cons]
          congr 1
          exact if_neg hcond
        rw [he, lookupA_cons_ne _ _ _ h']
        have he2 : setA rest k v = rest.map (fun p => if p.1 == k then (k, v) else p) := by
          simp only [setA, hs, if_true]
        rw [← he2, ih]
      · have he : setA (a :: rest) k v = a :: (rest ++ [(k, v)]) := by
          simp only [setA, hfind]
          rw [if_neg hs]
          rfl
        rw [he, lookupA_cons_ne _ _ _ h']
        have he2 : setA rest k v = rest ++ [(k, v)] := by
          simp only [setA]
          rw [if_neg hs]
        rw [← he2, ih]

theorem map_set_eq_of_lookup {α : Type} (m : List (Nat × α)) (k : Nat) (v : α)
    (hl : lookupA m k = some v) (hnd : (m.map Prod.fst).Nodup) :
    m.map (fun p => if p.1 == k then (k, v) else p) = m := by
  induction m with
  | nil => simp [lookupA] at hl
  | cons a rest ih =>
    simp only [List.map_cons, List.nodup_cons] at hnd
    by_cases h : (a.1 == k) = true
    · have hk : a.1 = k := by simpa using h
      have hv : a.2 = v := by
        simp [lookupA, List.find?_cons, h] at hl
        exact hl
      have hrest : rest.map (fun p => if p.1 == k then (k, v) else p) = rest := by
        conv_rhs => rw [← List.map_id rest]
        apply List.map_congr_left
        intro p hp
        have hne : p.1 ≠ k := by
          intro hpk
          have hmem : p.1 ∈ rest.map Prod.fst := List.mem_map_of_mem Prod.fst hp
          rw [hpk, ← hk] at hmem
          exact hnd.1 hmem
        have : ¬ ((p.1 == k) = true) := by simp [hne]
        simp [this]
      simp only [List.map_cons, h, if_pos, hrest]
      rw [← hk, ← hv]
    · have h' : (a.1 == k) = false := by simpa using h
      have hcond : ¬ ((a.1 == k) = true) := by simp [h']
      rw [lookupA_cons_ne _ _ _ h'] at hl
      simp only [List.map_cons]
      rw [if_neg hcond, ih hl hnd.2]

theorem setA_eq_of_lookup {α : Type} (m : List (Nat × α)) (k : Nat) (v : α)
    (hl : lookupA m k = some v) (hnd : (m.map Prod.fst).Nodup) :
    setA m k v = m := by
  have hs : (m.find? (fun p => p.1 == k)).isSome = true := by
    simp only [lookupA] at hl
    cases hf : m.find? (fun p => p.1 == k) with
    | none => simp [hf] at hl
    | some a => simp [hf]
  simp only [setA, hs, if_true]
  exact map_set_eq_of_lookup m k v hl hnd

theorem lookupA_eraseA_ne {α : Type} (m : List (Nat × α)) (k u : Nat) (h : u ≠ k) :
    lookupA (eraseA m k) u = lookupA m u := by
  induction m with
  | nil => rfl
  | cons a rest ih =>
    by_cases ha : (a.1 == k) = true
    · have hak : a.1 = k := by simpa using ha
      have hau : (a.1 == u) = false := by
        simp [hak]
        exact fun he => h he.symm
      have : eraseA (a :: rest) k = eraseA rest k := by
        simp [eraseA, ha]
      rw [this, ih, lookupA_cons_ne _ _ _ hau]
    · have ha' : (a.1 == k) = false := by simpa using ha
      have : eraseA (a :: rest) k = a :: eraseA rest k := by
        simp [eraseA, ha']
      rw [this]
      by_cases hau : (a.1 == u) = true
      · simp [lookupA, List.find?_cons, hau]
      · have hau' : (a.1 == u) = false := by simpa using hau
        rw [lookupA_cons_ne _ _ _ hau', lookupA_cons_ne _ _ _ hau', ih]

/-! ## Claim C7: rate limiter admission policy -/

/-- C7: during a hard cooldown (`cooldown_until > now`) admission succeeds
exactly for the exact priority string `"high"`; otherwise, after evicting
timestamps older than `now − 60 s`, a full window admits exactly `"high"`
and a non-full window admits everything; any other priority string behaves
as `"normal"`; and neither `can_proceed` nor `add_call` ever decreases
`cooldown_until`. -/
theorem C7_rate_limiter_admission (rl : RateLimiter) (now : ℚ) (priority : String) :
    (now < rl.cooldown_until →
      ((can_proceed rl now priority).1 = true ↔ priority = "high"))
    ∧ (¬ now < rl.cooldown_until →
        ((rl_cleanup rl.calls now rl.window).length ≥ rl.limit →
          ((can_proceed rl now priority).1 = true ↔ priority = "high"))
        ∧ ((rl_cleanup rl.calls now rl.window).length < rl.limit →
          (can_proceed rl now priority).1 = true))
    ∧ (priority ≠ "high" →
        (can_proceed rl now priority).1 = (can_proceed rl now "normal").1)
    ∧ rl.cooldown_until ≤ ((can_proceed rl now priority).2).cooldown_until
    ∧ rl.cooldown_until ≤ (add_call rl now).cooldown_until := by
  refine ⟨?_, ?_, ?_, ?_, ?_⟩
  · intro hc
    simp [can_proceed, if_pos hc, beq_iff_eq]
  · intro hc
    constructor
    · intro hge
      simp [can_proceed, if_neg hc, if_pos hge, beq_iff_eq]
    · intro hlt
      simp [can_proceed, if_neg hc, if_neg (not_le.mpr hlt)]
  · intro hp
    have hpb : (priority == "high") = false := by
      simp [hp]
    by_cases hc : now < rl.cooldown_until
    · simp [can_proceed, if_pos hc, hpb]
    · by_cases hge : (rl_cleanup rl.calls now rl.window).length ≥ rl.limit
      · simp [can_proceed, if_neg hc, if_pos hge, hpb]
      · simp [can_proceed, if_neg hc, if_neg hge]
  · by_cases hc : now < rl.cooldown_until
    · simp [can_proceed, if_pos hc]
    · by_cases hge : (rl_cleanup rl.calls now rl.window).length ≥ rl.limit
      · simp [can_proceed, if_neg hc, if_pos hge]
      · simp [can_proceed, if_neg hc, if_neg hge]
  · exact le_refl _

/-- C7 witness: a limiter in cooldown (`now = 50 < cooldown_until = 100`)
admits priority `"high"`. -/
theorem C7_rate_limiter_admission_witness :
    (can_proceed ⟨2, 60, [10, 20], 100⟩ 50 "high").1 = true ↔ ("high" : String) = "high" :=
  (C7_rate_limiter_admission ⟨2, 60, [10, 20], 100⟩ 50 "high").1 (by norm_num)

/-! ## Claim C3: scanner candidate filter and enrollment -/

/-- C3: the candidate filter passes exactly the instruments with
`1.0 ≤ last_traded ≤ 20.0` and `percent_change > 1.5` (boundary prices 1.0
and 20.0 pass, 0.99 and 20.01 fail, `percent_change = 1.5` fails), so the
concrete item `{Uic: 211, LastTraded: 5.0, PercentChange: 2.0}` is a hot
candidate that the claim requires to be enrolled — but `_scan_loop` calls
`self.md.add_subscription(uic)`, a method `MarketDataManager` does not
have (its adders are `add_to_stream` / `subscribe_to_ticker`), so the
`AttributeError` is swallowed by the scan loop and no candidate is ever
enrolled. -/
theorem C3_scanner_filter_eval :
    analyze_hot_candidate ⟨some 211, "Stock", 2, 5⟩ = some (some 211, 5, "Stock")
    ∧ analyze_hot_candidate ⟨some 211, "Stock", 2, 1⟩ = some (some 211, 1, "Stock")
    ∧ analyze_hot_candidate ⟨some 211, "Stock", 2, 20⟩ = some (some 211, 20, "Stock")
    ∧ analyze_hot_candidate ⟨some 211, "Stock", 2, 99/100⟩ = none
    ∧ analyze_hot_candidate ⟨some 211, "Stock", 2, 2001/100⟩ = none
    ∧ analyze_hot_candidate ⟨some 211, "Stock", 3/2, 5⟩ = none := by
  refine ⟨?_, ?_, ?_, ?_, ?_, ?_⟩ <;> norm_num [analyze_hot_candidate]

/-! ## Claim C4: unsubscribe on REST failure -/

/-- C4 counterexample: with a known reference id and a failing REST DELETE,
`unsubscribe_from_ticker` leaves the whole local ledger unchanged — UIC 7
is still in the active list and the reference-id map, contradicting the
claim that a failing delete still removes the UIC locally. -/
theorem C4_counterexample :
    unsubscribe_from_ticker (fun _ => false) c4_state 7 = c4_state
    ∧ 7 ∈ (unsubscribe_from_ticker (fun _ => false) c4_state 7).active_uics
    ∧ lookupA (unsubscribe_from_ticker (fun _ => false) c4_state 7).uic_ref_map 7
        = some "PriceSub_1_7_100" := by
  refine ⟨?_, ?_, ?_⟩ <;> decide

/-- C4 (amended): for an enrolled UIC with a known reference id, a remove
call whose REST DELETE fails (non-2xx or transport error) leaves the local
ledger entirely unchanged; local state is dropped on such a call only via
the 2xx branch or when the UIC has no known reference id. -/
theorem C4_remove_keeps_state_on_rest_failure (rest_ok : Nat → Bool) (s : MDState)
    (uic : Nat) (r : String) (hact : uic ∈ s.active_uics)
    (href : lookupA s.uic_ref_map uic = some r) (hfail : rest_ok uic = false) :
    unsubscribe_from_ticker rest_ok s uic = s := by
  simp only [unsubscribe_from_ticker]
  rw [if_neg (not_not_intro hact), href, hfail]
  simp

/-- C4 witness: the amended statement at the concrete ledger `c4_state`. -/
theorem C4_remove_keeps_state_on_rest_failure_witness :
    unsubscribe_from_ticker (fun _ => false) c4_state 7 = c4_state :=
  C4_remove_keeps_state_on_rest_failure (fun _ => false) c4_state 7 "PriceSub_1_7_100"
    (by decide) (by decide) rfl

/-! ## Claim C5: pruning selection and safety -/

theorem ledger_entries_eq_refl (s : MDState) (u : Nat) : ledger_entries_eq s s u :=
  ⟨Iff.rfl, rfl, rfl, rfl⟩

theorem ledger_entries_eq_trans {s t w : MDState} {u : Nat}
    (h1 : ledger_entries_eq s t u) (h2 : ledger_entries_eq t w u) :
    ledger_entries_eq s w u :=
  ⟨h2.1.trans h1.1, h2.2.1.trans h1.2.1, h2.2.2.1.trans h1.2.2.1, h2.2.2.2.trans h1.2.2.2⟩

theorem unsubscribe_preserves_other (rest_ok : Nat → Bool) (s : MDState)
    (v u : Nat) (h : u ≠ v) :
    ledger_entries_eq s (unsubscribe_from_ticker rest_ok s v) u := by
  simp only [unsubscribe_from_ticker]
  by_cases hm : v ∈ s.active_uics
  · rw [if_neg (not_not_intro hm)]
    cases hr : lookupA s.uic_ref_map v with
    | none =>
      exact ⟨List.mem_erase_of_ne h, rfl,
        lookupA_eraseA_ne _ _ _ h, lookupA_eraseA_ne _ _ _ h⟩
    | some r =>
      by_cases hok : rest_ok v = true
      · rw [if_pos hok]
        exact ⟨List.mem_erase_of_ne h, lookupA_eraseA_ne _ _ _ h,
          lookupA_eraseA_ne _ _ _ h, lookupA_eraseA_ne _ _ _ h⟩
      · rw [if_neg hok]
        exact ledger_entries_eq_refl s u
  · rw [if_pos hm]
    exact ledger_entries_eq_refl s u

theorem foldl_unsubscribe_preserves (rest_ok : Nat → Bool) (l : List Nat)
    (s : MDState) (u : Nat) (h : u ∉ l) :
    ledger_entries_eq s (l.foldl (unsubscribe_from_ticker rest_ok) s) u := by
  induction l generalizing s with
  | nil => exact ledger_entries_eq_refl s u
  | cons v t ih =>
    have hne : u ≠ v := fun he => h (he ▸ List.mem_cons_self v t)
    have ht : u ∉ t := fun he => h (List.mem_cons_of_mem v he)
    exact ledger_entries_eq_trans
      (unsubscribe_preserves_other rest_ok s v u hne)
      (ih (unsubscribe_from_ticker rest_ok s v) ht)

/-- C5: `prune_stream(safe)` selects a UIC for removal exactly when some
start-time entry for it is more than 3600 s in the past and it is not in
the safe list; every UIC in the safe list, and more generally every UIC
not selected, keeps all its ledger entries untouched. -/
theorem C5_prune_stream_safety (rest_ok : Nat → Bool) (s : MDState)
    (safe_uics : List Nat) (now : ℚ) (u : Nat) :
    (u ∈ prune_to_remove s.subscription_start_times safe_uics now ↔
      ∃ t, (u, t) ∈ s.subscription_start_times ∧ now - t > 3600 ∧ u ∉ safe_uics)
    ∧ (u ∈ safe_uics → ledger_entries_eq s (prune_stream rest_ok s safe_uics now) u)
    ∧ (u ∉ prune_to_remove s.subscription_start_times safe_uics now →
        ledger_entries_eq s (prune_stream rest_ok s safe_uics now) u) := by
  have hmem : u ∈ prune_to_remove s.subscription_start_times safe_uics now ↔
      ∃ t, (u, t) ∈ s.subscription_start_times ∧ now - t > 3600 ∧ u ∉ safe_uics := by
    simp only [prune_to_remove, List.mem_map, List.mem_filter]
    constructor
    · rintro ⟨⟨a, b⟩, ⟨hab, hp⟩, hfst⟩
      have ha : a = u := hfst
      subst ha
      simp only [Bool.and_eq_true, Bool.not_eq_true', decide_eq_false_iff_not,
        decide_eq_true_eq] at hp
      exact ⟨b, hab, hp.2, hp.1⟩
    · rintro ⟨t, hmem, hold, hsafe⟩
      refine ⟨(u, t), ⟨hmem, ?_⟩, rfl⟩
      simp only [Bool.and_eq_true, Bool.not_eq_true', decide_eq_false_iff_not,
        decide_eq_true_eq]
      exact ⟨hsafe, hold⟩
  have hkeep : u ∉ prune_to_remove s.subscription_start_times safe_uics now →
      ledger_entries_eq s (prune_stream rest_ok s safe_uics now) u := by
    intro hn
    exact foldl_unsubscribe_preserves rest_ok _ s u hn
  refine ⟨hmem, ?_, hkeep⟩
  intro hsafe
  apply hkeep
  intro hin
  exact ((hmem.mp hin).choose_spec.2.2) hsafe

/-- C5 witness: with UICs 10 and 20 both subscribed at time 0, safe list
`[20]` and clock 4000 s, UIC 10 is selected for pruning. -/
theorem C5_prune_stream_safety_witness :
    10 ∈ prune_to_remove [(10, 0), (20, 0)] [20] 4000 :=
  (C5_prune_stream_safety (fun _ => true) ⟨[10, 20], [], [], [(10, 0), (20, 0)]⟩
      [20] 4000 10).1.mpr ⟨0, by norm_num⟩

/-! ## Claim C10: hardcoded currencies in the profit guard -/

theorem net_profit_usd_eur (acct : AccountOracle) (entry cur qty : ℚ) (uic : Nat) :
    calculate_net_profit acct entry cur qty uic "USD" "EUR" true
      = (cur - entry) * qty * (9/10) - acct.getComm uic qty ((entry + cur) / 2)
        - (entry * qty + cur * qty) * (9/10) * (5/1000)
        - cur * qty * (9/10) * (5/10000) := by
  simp only [calculate_net_profit]
  rw [show get_fx_rate "USD" "EUR" = 9/10 from rfl]
  rw [if_pos (show ("USD" : String) ≠ "EUR" by decide), if_pos trivial]
  ring

/-- C10: the guard's account currency is the hardcoded `"EUR"` and the
strategy passes the hardcoded `"USD"`, so `evaluate_trade` always converts
at the fixed mock rate 0.90 and always charges the 0.5% round-trip FX
friction plus the 5 bps slippage buffer; and `get_fx_rate` returns 1.0 for
every unrecognized currency pair. -/
theorem C10_hardcoded_currencies (acct : AccountOracle) (entry cur qty : ℚ) (uic : Nat) :
    get_fx_rate "USD" "EUR" = 9/10
    ∧ (evaluate_trade acct entry cur qty uic "USD" = true ↔
        0 < (cur - entry) * qty * (9/10)
            - acct.getComm uic qty ((entry + cur) / 2)
            - (entry * qty + cur * qty) * (9/10) * (5/1000)
            - cur * qty * (9/10) * (5/10000))
    ∧ (∀ fr t2 : String, fr ≠ t2 → ¬ (fr = "USD" ∧ t2 = "EUR") →
        ¬ (fr = "EUR" ∧ t2 = "USD") → get_fx_rate fr t2 = 1) := by
  refine ⟨rfl, ?_, ?_⟩
  · rw [evaluate_trade, decide_eq_true_iff, net_profit_usd_eur]
  · intro fr t2 h1 h2 h3
    rw [get_fx_rate, if_neg h1, if_neg h2, if_neg h3]

/-- C10 witness: a flat commission of 1, entry 100, exit 105, quantity 10:
the guard passes and the net matches the expanded USD→EUR formula. -/
theorem C10_hardcoded_currencies_witness :
    evaluate_trade ⟨fun _ _ _ => 1⟩ 100 105 10 211 "USD" = true :=
  (C10_hardcoded_currencies ⟨fun _ _ _ => 1⟩ 100 105 10 211).2.1.mpr (by norm_num)

/-! ## Claim C8: position persistence round trip -/

/-- C8 counterexample: the JSON object actually persisted for a position
has keys `entry_price`, `quantity`, `max_price`, `uic` — there is no
`peak_price` field (the peak lives under `max_price`). -/
theorem C8_counterexample :
    (save_state 211 ⟨100, 10, 110⟩).map Prod.fst
      = ["entry_price", "quantity", "max_price", "uic"]
    ∧ "peak_price" ∉ (save_state 211 ⟨100, 10, 110⟩).map Prod.fst := by
  constructor <;> decide

/-- C8 (amended): the state persisted under `saxotrader:position:{uic}` is
the JSON object with fields `entry_price`, `quantity`, `max_price`, `uic`
(`max_price` holding the peak price), and persist-then-reload restores the
entry price, quantity and peak price exactly into the in-memory position
map for that UIC. -/
theorem C8_persist_reload_roundtrip (uic : Nat) (pos : Position) (h : 0 < uic) :
    load_state (save_state uic pos) = some (uic, pos) := by
  have hu : jGet (save_state uic pos) "uic" = some ⟨(uic : ℚ)⟩ := rfl
  have he : jGet (save_state uic pos) "entry_price" = some ⟨pos.entry_price⟩ := rfl
  have hq : jGet (save_state uic pos) "quantity" = some ⟨pos.quantity⟩ := rfl
  have hm : jGet (save_state uic pos) "max_price" = some ⟨pos.max_price⟩ := rfl
  have h0 : ((uic : ℚ)) ≠ 0 := by
    exact_mod_cast Nat.pos_iff_ne_zero.mp h
  simp only [load_state, hu, he, hq, hm, if_neg h0]
  rw [show ((uic : ℚ)).floor = ⌊(uic : ℚ)⌋ from rfl, Int.floor_natCast, Int.toNat_natCast]

/-- C8 witness: round trip at UIC 211 with entry 100, quantity 10, peak
110. -/
theorem C8_persist_reload_roundtrip_witness :
    load_state (save_state 211 ⟨100, 10, 110⟩) = some (211, ⟨100, 10, 110⟩) :=
  C8_persist_reload_roundtrip 211 ⟨100, 10, 110⟩ (by decide)

/-! ## Claim C1: trailing stop with profit-guard veto -/

/-- C1: with a held position (known stop-loss 1%, positive tick, dict-like
position map), `TrendFollower.update` emits SELL exactly when the tick is
at or below `peak · (1 − 0.01)` (inclusive) and the profit-guard net —
gross PnL at fx 0.90 minus commission, 0.5% round-trip FX friction and
5 bps exit slippage — is strictly positive; when the stop is hit but the
net is non-positive the update returns no signal and the position map is
unchanged. -/
theorem C1_trailing_stop_profit_guard (acct : AccountOracle) (s : StrategyState)
    (uic : Nat) (current_price quantity : ℚ) (pos : Position)
    (hpos : lookupA s.positions uic = some pos)
    (hnd : (s.positions.map Prod.fst).Nodup)
    (hsl : s.stop_loss_pct = 1/100)
    (hpr : 0 < current_price) :
    ((strategy_update acct s uic current_price quantity).1 = some Signal.SELL ↔
      (current_price ≤ pos.max_price * (1 - 1/100)
        ∧ 0 < (current_price - pos.entry_price) * pos.quantity * (9/10)
              - acct.getComm uic pos.quantity ((pos.entry_price + current_price) / 2)
              - (pos.entry_price * pos.quantity + current_price * pos.quantity) * (9/10) * (5/1000)
              - current_price * pos.quantity * (9/10) * (5/10000)))
    ∧ (current_price ≤ pos.max_price * (1 - 1/100) →
        (current_price - pos.entry_price) * pos.quantity * (9/10)
          - acct.getComm uic pos.quantity ((pos.entry_price + current_price) / 2)
          - (pos.entry_price * pos.quantity + current_price * pos.quantity) * (9/10) * (5/1000)
          - current_price * pos.quantity * (9/10) * (5/10000) ≤ 0 →
        (strategy_update acct s uic current_price quantity).1 = none
        ∧ (strategy_update acct s uic current_price quantity).2.positions = s.positions) := by
  have hred : strategy_update acct s uic current_price quantity
      = check_exit_signal acct (with_history s uic current_price) uic current_price pos := by
    simp only [strategy_update, with_history]
    rw [hpos]
  have hwpos : (with_history s uic current_price).positions = s.positions := rfl
  have hwsl : (with_history s uic current_price).stop_loss_pct = 1/100 := hsl
  by_cases hgt : current_price > pos.max_price
  · -- new peak: the stop cannot be hit on the same tick
    have hexit : (strategy_update acct s uic current_price quantity).1 = none := by
      rw [hred]
      simp only [check_exit_signal, if_pos hgt]
      rw [if_neg (show ¬ (current_price
          ≤ (Position.mk pos.entry_price pos.quantity current_price).max_price
            * (1 - (with_history s uic current_price).stop_loss_pct)) by
        rw [hwsl]; intro hc; simp at hc; linarith)]
    have hnostop : ¬ (current_price ≤ pos.max_price * (1 - 1/100)) := by
      intro hc
      linarith
    constructor
    · rw [hexit]
      exact iff_of_false (by simp) (fun hc => hnostop hc.1)
    · intro hstop _
      exact absurd hstop hnostop
  · -- peak unchanged
    have hset : setA s.positions uic pos = s.positions :=
      setA_eq_of_lookup s.positions uic pos hpos hnd
    by_cases hstop : current_price ≤ pos.max_price * (1 - 1/100)
    · by_cases hnet : 0 < (current_price - pos.entry_price) * pos.quantity * (9/10)
          - acct.getComm uic pos.quantity ((pos.entry_price + current_price) / 2)
          - (pos.entry_price * pos.quantity + current_price * pos.quantity) * (9/10) * (5/1000)
          - current_price * pos.quantity * (9/10) * (5/10000)
      · -- stop hit, guard passes: SELL
        have hguard : evaluate_trade acct pos.entry_price current_price pos.quantity uic "USD"
            = true := by
          rw [evaluate_trade]
          apply decide_eq_true
          rw [net_profit_usd_eur]
          exact hnet
        have hexit : (strategy_update acct s uic current_price quantity).1
            = some Signal.SELL := by
          rw [hred]
          simp only [check_exit_signal, if_neg hgt]
          rw [if_pos (show current_price
              ≤ pos.max_price * (1 - (with_history s uic current_price).stop_loss_pct) by
            rw [hwsl]; exact hstop)]
          rw [hguard]
          simp
        constructor
        · rw [hexit]
          exact iff_of_true rfl ⟨hstop, hnet⟩
        · intro _ hle
          exact absurd hnet (not_lt.mpr hle)
      · -- stop hit, guard vetoes: hold, position map unchanged
        have hguard : evaluate_trade acct pos.entry_price current_price pos.quantity uic "USD"
            = false := by
          rw [evaluate_trade]
          apply decide_eq_false
          rw [net_profit_usd_eur]
          exact hnet
        have hexit : strategy_update acct s uic current_price quantity
            = (none, { with_history s uic current_price with
                       positions := setA s.positions uic pos }) := by
          rw [hred]
          simp only [check_exit_signal, if_neg hgt]
          rw [if_pos (show current_price
              ≤ pos.max_price * (1 - (with_history s uic current_price).stop_loss_pct) by
            rw [hwsl]; exact hstop)]
          rw [hguard]
          rfl
        constructor
        · rw [hexit]
          exact iff_of_false (by simp) (fun hc => hnet hc.2)
        · intro _ _
          rw [hexit]
          exact ⟨rfl, hset⟩
    · -- stop not hit
      have hexit : strategy_update acct s uic current_price quantity
          = (none, { with_history s uic current_price with
                     positions := setA s.positions uic pos }) := by
        rw [hred]
        simp only [check_exit_signal, if_neg hgt]
        rw [if_neg (show ¬ (current_price
            ≤ pos.max_price * (1 - (with_history s uic current_price).stop_loss_pct)) by
          rw [hwsl]; exact hstop)]
        rfl
      constructor
      · rw [hexit]
        exact iff_of_false (by simp) (fun hc => hstop hc.1)
      · intro hstop' _
        exact absurd hstop' hstop

/-- C1 witness: flat commission 1, position entry 100 / qty 10 / peak 110,
tick 105 (stop 108.9 hit, net 34.3025 > 0): SELL is emitted. -/
theorem C1_trailing_stop_profit_guard_witness :
    (strategy_update ⟨fun _ _ _ => 1⟩ ⟨1/100, [(211, ⟨100, 10, 110⟩)], []⟩ 211 105 10).1
      = some Signal.SELL :=
  (C1_trailing_stop_profit_guard ⟨fun _ _ _ => 1⟩ ⟨1/100, [(211, ⟨100, 10, 110⟩)], []⟩
      211 105 10 ⟨100, 10, 110⟩ rfl (by decide) rfl (by norm_num)).1.mpr
    ⟨by norm_num, by norm_num⟩

/-! ## Claim C6: EMA entry signal -/

theorem calculate_ema_init (ps : List ℚ) (period : Nat) (h0 : 0 < period)
    (hlen : ps.length = period) : calculate_ema ps period = ps.sum / (period : ℚ) := by
  have hne : ps ≠ [] := by
    intro h
    rw [h] at hlen
    simp at hlen
    omega
  simp only [calculate_ema, if_neg hne]
  rw [← hlen, List.take_length, List.drop_length]
  rfl

theorem calculate_ema_step (ps : List ℚ) (p : ℚ) (period : Nat) (h0 : 0 < period)
    (hle : period ≤ ps.length) :
    calculate_ema (ps ++ [p]) period
      = p * (2 / ((period : ℚ) + 1))
        + calculate_ema ps period * (1 - 2 / ((period : ℚ) + 1)) := by
  have hne : ps ≠ [] := by
    intro h
    rw [h] at hle
    simp at hle
    omega
  have hne2 : ps ++ [p] ≠ [] := by simp
  simp only [calculate_ema, if_neg hne, if_neg hne2]
  rw [List.take_append_of_le_length hle, List.drop_append_of_le_length hle,
    List.foldl_append]
  rfl

/-- C6: with no open position, no BUY is produced while the appended price
history holds fewer than `long_period = 20` samples; with at least 20
samples a BUY is emitted exactly when `EMA(5) > EMA(20)`, recording
`entry_price = peak = current_price` and the configured quantity; and
`calculate_ema` is the SMA over the first `period` values followed by the
iterative update `ema ← p·k + ema·(1 − k)` with `k = 2/(period+1)`. -/
theorem C6_ema_entry_signal (acct : AccountOracle) (s : StrategyState) (uic : Nat)
    (current_price quantity : ℚ)
    (hpos : lookupA s.positions uic = none) :
    ((push_history ((lookupA s.price_history uic).getD []) current_price).length < long_period →
      (strategy_update acct s uic current_price quantity).1 = none
      ∧ lookupA (strategy_update acct s uic current_price quantity).2.positions uic = none)
    ∧ (long_period ≤ (push_history ((lookupA s.price_history uic).getD []) current_price).length →
        ((strategy_update acct s uic current_price quantity).1 = some Signal.BUY ↔
          calculate_ema (push_history ((lookupA s.price_history uic).getD []) current_price)
              short_period
            > calculate_ema (push_history ((lookupA s.price_history uic).getD []) current_price)
              long_period)
        ∧ (calculate_ema (push_history ((lookupA s.price_history uic).getD []) current_price)
              short_period
            > calculate_ema (push_history ((lookupA s.price_history uic).getD []) current_price)
              long_period →
            lookupA (strategy_update acct s uic current_price quantity).2.positions uic
              = some ⟨current_price, quantity, current_price⟩))
    ∧ (∀ (ps : List ℚ) (period : Nat), 0 < period → ps.length = period →
        calculate_ema ps period = ps.sum / (period : ℚ))
    ∧ (∀ (ps : List ℚ) (q : ℚ) (period : Nat), 0 < period → period ≤ ps.length →
        calculate_ema (ps ++ [q]) period
          = q * (2 / ((period : ℚ) + 1))
            + calculate_ema ps period * (1 - 2 / ((period : ℚ) + 1))) := by
  have hred : strategy_update acct s uic current_price quantity
      = check_entry_signal (with_history s uic current_price) uic current_price quantity
          (push_history ((lookupA s.price_history uic).getD []) current_price) := by
    simp only [strategy_update, with_history]
    rw [hpos]
  refine ⟨?_, ?_, fun ps period h0 hlen => calculate_ema_init ps period h0 hlen,
    fun ps q period h0 hle => calculate_ema_step ps q period h0 hle⟩
  · intro hlt
    have hcheck : check_entry_signal (with_history s uic current_price) uic current_price
        quantity (push_history ((lookupA s.price_history uic).getD []) current_price)
        = (none, with_history s uic current_price) := by
      simp only [check_entry_signal, if_pos hlt]
    rw [hred, hcheck]
    exact ⟨rfl, hpos⟩
  · intro hge
    have hnlt : ¬ ((push_history ((lookupA s.price_history uic).getD []) current_price).length
        < long_period) := not_lt.mpr hge
    by_cases hgt : calculate_ema (push_history ((lookupA s.price_history uic).getD [])
          current_price) short_period
        > calculate_ema (push_history ((lookupA s.price_history uic).getD [])
          current_price) long_period
    · have hcheck : check_entry_signal (with_history s uic current_price) uic current_price
          quantity (push_history ((lookupA s.price_history uic).getD []) current_price)
          = (some Signal.BUY,
             { with_history s uic current_price with
               positions := setA (with_history s uic current_price).positions uic
                 ⟨current_price, quantity, current_price⟩ }) := by
        simp only [check_entry_signal, if_neg hnlt, if_pos hgt]
      constructor
      · rw [hred, hcheck]
        exact iff_of_true rfl hgt
      · intro _
        rw [hred, hcheck]
        exact lookupA_setA _ _ _
    · have hcheck : check_entry_signal (with_history s uic current_price) uic current_price
          quantity (push_history ((lookupA s.price_history uic).getD []) current_price)
          = (none, with_history s uic current_price) := by
        simp only [check_entry_signal, if_neg hnlt, if_neg hgt]
      constructor
      · rw [hred, hcheck]
        exact iff_of_false (by simp) hgt
      · intro hc
        exact absurd hc hgt

/-- C6 witness: an 18-sample history plus the current tick gives 19 < 20
samples, so no signal is produced. -/
theorem C6_ema_entry_signal_witness :
    (strategy_update ⟨fun _ _ _ => 1⟩ ⟨1/100, [], [(211, List.replicate 18 100)]⟩
      211 100 10).1 = none :=
  ((C6_ema_entry_signal ⟨fun _ _ _ => 1⟩ ⟨1/100, [], [(211, List.replicate 18 100)]⟩
      211 100 10 rfl).1 (by decide)).1

/-! ## Claim C9: dynamic subscriptions never update the quote map -/

/-- C9: a dynamically added single-UIC subscription is enrolled in the
ledger under the suffixed reference id `PriceSub_1_{uic}_{unix_seconds}`;
that suffixed id never equals the base id `PriceSub_1`; and a decoded
binary frame whose reference id differs from the base id leaves the
manager's state (in particular the quote map) unchanged — so only the
initial REST snapshot of a dynamic subscription ever reaches the quote
map. -/
theorem C9_dynamic_refid_never_updates_quotes (uic now_sec : Nat)
    (snapshot : List PayloadItem) (s : MDState) :
    (uic ∉ s.active_uics →
      lookupA (subscribe_to_ticker true snapshot s uic now_sec).uic_ref_map uic
        = some (dyn_ref_id uic now_sec))
    ∧ dyn_ref_id uic now_sec ≠ base_ref_id
    ∧ (∀ (parse : List Nat → List PayloadItem) (s2 : MDState) (msg : List Nat)
        (f : SaxoFrame) (t : ℚ), decode_saxo_message msg = some f →
        f.refId ≠ base_ref_id → on_message parse s2 msg t = s2) := by
  refine ⟨?_, ?_, ?_⟩
  · intro hnm
    simp only [subscribe_to_ticker, if_neg hnm, if_pos rfl]
    exact lookupA_setA _ _ _
  · intro hc
    have hlen := congrArg String.length hc
    simp only [dyn_ref_id, base_ref_id, String.length_append,
      show ("PriceSub_1" : String).length = 10 from rfl,
      show ("_" : String).length = 1 from rfl] at hlen
    omega
  · intro parse s2 msg f t hdec hne
    simp only [on_message, hdec]
    rw [if_neg hne]

/-- C9 witness: enrolling UIC 42 at unix second 100 into an empty ledger
records the suffixed reference id `PriceSub_1_42_100`. -/
theorem C9_dynamic_refid_never_updates_quotes_witness :
    lookupA (subscribe_to_ticker true [] ⟨[], [], [], []⟩ 42 100).uic_ref_map 42
      = some (dyn_ref_id 42 100) :=
  (C9_dynamic_refid_never_updates_quotes 42 100 [] ⟨[], [], [], []⟩).1 (by decide)

/-! ## Claim C2: frame decoding -/

theorem leBytes_length (n v : Nat) : (leBytes n v).length = n := by
  induction n generalizing v with
  | zero => rfl
  | succ n ih => simp [leBytes, ih]

theorem leVal_leBytes (n v : Nat) : leVal (leBytes n v) = v % 256 ^ n := by
  induction n generalizing v with
  | zero => simp [leBytes, leVal, Nat.mod_one]
  | succ n ih =>
    simp only [leBytes, leVal, ih]
    rw [pow_succ, mul_comm (256 ^ n) 256, Nat.mod_mul]

theorem readLE_front (mid post : List Nat) (n : Nat) (hn : mid.length = n) :
    readLE (mid ++ post) 0 n = some (leVal mid) := by
  subst hn
  rw [readLE, if_pos (by simp)]
  rw [List.drop_zero, List.take_left]

theorem readLE_append (pre mid post : List Nat) (off n : Nat)
    (hoff : pre.length = off) (hn : mid.length = n) :
    readLE (pre ++ (mid ++ post)) off n = some (leVal mid) := by
  subst hoff hn
  rw [readLE, if_pos (by simp [List.length_append])]
  rw [List.drop_left, List.take_left]

theorem slice_append (pre mid post : List Nat) (off n : Nat)
    (hoff : pre.length = off) (hn : mid.length = n) :
    sliceBytes (pre ++ (mid ++ post)) off n = mid := by
  subst hoff hn
  rw [sliceBytes, List.drop_left, List.take_left]

theorem decode_encode_saxo (f : SaxoFrame) (rest : List Nat)
    (hm : f.msgId < 2 ^ 64)
    (ha : ∀ c ∈ f.refId.data, c.toNat < 128)
    (hp : f.payload.length < 2 ^ 32) :
    decode_saxo_message (encode_saxo_frame f ++ rest) = some f := by
  have hA : (leBytes 8 f.msgId).length = 8 := leBytes_length 8 f.msgId
  have hP4 : (leBytes 4 f.payload.length).length = 4 := leBytes_length 4 f.payload.length
  have hR : (f.refId.data.map Char.toNat).length = f.refId.length := by
    rw [List.length_map]
    rfl
  have h1 : readLE (encode_saxo_frame f ++ rest) 0 8 = some f.msgId := by
    have h := readLE_front (leBytes 8 f.msgId)
      ([0, 0] ++ ([f.refId.length] ++ (f.refId.data.map Char.toNat
        ++ ([f.payloadFormat] ++ (leBytes 4 f.payload.length ++ (f.payload ++ rest))))))
      8 hA
    simp only [List.append_assoc] at h
    simp only [encode_saxo_frame, List.append_assoc]
    rw [h, leVal_leBytes, Nat.mod_eq_of_lt (by norm_num at hm ⊢; exact hm)]
  have h2 : readLE (encode_saxo_frame f ++ rest) 10 1 = some f.refId.length := by
    have h := readLE_append (leBytes 8 f.msgId ++ [0, 0]) [f.refId.length]
      (f.refId.data.map Char.toNat
        ++ ([f.payloadFormat] ++ (leBytes 4 f.payload.length ++ (f.payload ++ rest))))
      10 1 (by simp [List.length_append, hA]) rfl
    simp only [List.append_assoc] at h
    simp only [encode_saxo_frame, List.append_assoc]
    rw [h]
    simp [leVal]
  have h3 : asciiDecode (sliceBytes (encode_saxo_frame f ++ rest) 11 f.refId.length)
      = some f.refId := by
    have h := slice_append (leBytes 8 f.msgId ++ [0, 0] ++ [f.refId.length])
      (f.refId.data.map Char.toNat)
      ([f.payloadFormat] ++ (leBytes 4 f.payload.length ++ (f.payload ++ rest)))
      11 f.refId.length (by simp [List.length_append, hA]) hR
    simp only [List.append_assoc] at h
    rw [show sliceBytes (encode_saxo_frame f ++ rest) 11 f.refId.length
        = f.refId.data.map Char.toNat by
      simp only [encode_saxo_frame, List.append_assoc]
      exact h]
    rw [asciiDecode, if_pos]
    · congr 1
      rw [List.map_map]
      have : f.refId.data.map (Char.ofNat ∘ Char.toNat) = f.refId.data := by
        conv_rhs => rw [← List.map_id f.refId.data]
        apply List.map_congr_left
        intro c _
        exact Char.ofNat_toNat c
      rw [this]
    · rw [List.all_eq_true]
      intro b hb
      rcases List.mem_map.mp hb with ⟨c, hc, hbc⟩
      simpa [← hbc] using ha c hc
  have h4 : readLE (encode_saxo_frame f ++ rest) (11 + f.refId.length) 1
      = some f.payloadFormat := by
    have h := readLE_append
      (leBytes 8 f.msgId ++ [0, 0] ++ [f.refId.length] ++ f.refId.data.map Char.toNat)
      [f.payloadFormat]
      (leBytes 4 f.payload.length ++ (f.payload ++ rest))
      (11 + f.refId.length) 1
      (by simp only [List.length_append, hA, hR, List.length_cons, List.length_nil])
      rfl
    simp only [List.append_assoc] at h
    simp only [encode_saxo_frame, List.append_assoc]
    rw [h]
    simp [leVal]
  have h5 : readLE (encode_saxo_frame f ++ rest) (12 + f.refId.length) 4
      = some f.payload.length := by
    have h := readLE_append
      (leBytes 8 f.msgId ++ [0, 0] ++ [f.refId.length] ++ f.refId.data.map Char.toNat
        ++ [f.payloadFormat])
      (leBytes 4 f.payload.length)
      (f.payload ++ rest)
      (12 + f.refId.length) 4
      (by simp only [List.length_append, hA, hR, List.length_cons, List.length_nil]; omega)
      hP4
    simp only [List.append_assoc] at h
    simp only [encode_saxo_frame, List.append_assoc]
    rw [h, leVal_leBytes, Nat.mod_eq_of_lt (by norm_num at hp ⊢; exact hp)]
  have h6 : sliceBytes (encode_saxo_frame f ++ rest) (16 + f.refId.length) f.payload.length
      = f.payload := by
    have h := slice_append
      (leBytes 8 f.msgId ++ [0, 0] ++ [f.refId.length] ++ f.refId.data.map Char.toNat
        ++ [f.payloadFormat] ++ leBytes 4 f.payload.length)
      f.payload rest
      (16 + f.refId.length) f.payload.length
      (by simp only [List.length_append, hA, hR, hP4, List.length_cons, List.length_nil]; omega)
      rfl
    simp only [List.append_assoc] at h
    simp only [encode_saxo_frame, List.append_assoc]
    exact h
  simp only [decode_saxo_message, h1, h2, h3, h4, h5, h6]

/-- C2 counterexample: on a WebSocket message consisting of two
concatenated §4.D frames, the spec-described exhaustive decoder yields
both frames, but `decode_saxo_message` yields only the first — the second
frame is never decoded, refuting "the decoder decodes every frame,
iterating until the buffer is exhausted". -/
theorem C2_counterexample :
    decodeAllFramesSpec two_frame_msg
      = some [⟨1, "A", 1, [7]⟩, ⟨2, "B", 1, [9]⟩]
    ∧ decode_saxo_message two_frame_msg = some ⟨1, "A", 1, [7]⟩
    ∧ (⟨2, "B", 1, [9]⟩ : SaxoFrame) ∉ [(⟨1, "A", 1, [7]⟩ : SaxoFrame)] := by
  refine ⟨?_, ?_, ?_⟩ <;> decide

/-- C2 (amended): the decoder decodes exactly one logical frame per
WebSocket message — the first frame of the buffer is decoded correctly
whatever trailing bytes (further concatenated frames included) follow it,
which are ignored; and any message whose bytes fail to unpack is dropped
alone, the handler returning the state unchanged so the connection stays
up. -/
theorem C2_decoder_first_frame_only (f : SaxoFrame) (rest : List Nat)
    (parse : List Nat → List PayloadItem) (s : MDState) (msg : List Nat) (t : ℚ) :
    (f.msgId < 2 ^ 64 → (∀ c ∈ f.refId.data, c.toNat < 128) → f.refId.length < 256 →
      f.payloadFormat < 256 → f.payload.length < 2 ^ 32 →
      decode_saxo_message (encode_saxo_frame f ++ rest) = some f)
    ∧ (decode_saxo_message msg = none → on_message parse s msg t = s) := by
  constructor
  · intro hm ha _ _ hp
    exact decode_encode_saxo f rest hm ha hp
  · intro hd
    simp only [on_message, hd]

/-- C2 witness: frame `(1, "A", 1, [7])` decodes back from its encoding
with two junk trailing bytes, and the empty message (an unpack failure)
leaves the manager state unchanged. -/
theorem C2_decoder_first_frame_only_witness :
    decode_saxo_message (encode_saxo_frame ⟨1, "A", 1, [7]⟩ ++ [9, 9])
      = some ⟨1, "A", 1, [7]⟩
    ∧ on_message (fun _ => []) ⟨[], [], [], []⟩ [] 0 = ⟨[], [], [], []⟩ := by
  constructor
  · exact (C2_decoder_first_frame_only ⟨1, "A", 1, [7]⟩ [9, 9] (fun _ => [])
      ⟨[], [], [], []⟩ [] 0).1 (by decide) (by decide) (by decide) (by decide) (by decide)
  · exact (C2_decoder_first_frame_only ⟨1, "A", 1, [7]⟩ [9, 9] (fun _ => [])
      ⟨[], [], [], []⟩ [] 0).2 (by decide)
